import Mathlib

/-!
# Verification of the FrameData context type (`src/types.rs`)

This file gives a shallow embedding of the `FrameData` record of the
repository and of the operations the specification talks about:

* the three enumerations `BufferType`, `Stat`, `Error`;
* `FrameData` itself: a statistics map `Stat → u128`, a buffers map
  `BufferType → BytesMut`, and an optional `Error`;
* the trait implementations `FrameProperties` (`set`/`get`),
  `PullableFrameProperties` (`push`/`pull`), `BorrowFrameProperties`
  (`get_ref`), `FrameError` (`report_error`/`get_error`);
* the bincode `Encode`/`Decode` implementations, which serialize the
  statistics map, the error option and the buffers map (each buffer
  copied with `to_vec` into a length-prefixed byte vector) in that order.

A Rust `HashMap` is modelled as an association list whose order stands
for the (unspecified) iteration order of the map; `insert` replaces the
entry in place when the key is present and appends otherwise, `remove`
deletes the entry, and two maps are equal as mappings when every key
looks up to the same value.  Machine integers are `Nat` with explicit
bounds where overflow could matter (`u128` values are `< 2^128`, bytes
are `< 256`); byte strings (`BytesMut`, `Vec<u8>`) are `List Nat`.
-/

/-- `enum BufferType` of `src/types.rs`. -/
inductive BufferType where
  | YUVFrameBuffer
  | EncodedFrameBuffer
  | SerializedFrameData
  | DecodedRGBAFrameBuffer
  deriving DecidableEq, Repr, Fintype

/-- `enum Stat` of `src/types.rs`. -/
inductive Stat where
  | CaptureTime
  | EncodePushTime
  | TransmissionStartTime
  | DecodePushTime
  | EncodeTime
  | TransmissionTime
  | DecodeTime
  | FrameDelay
  | ReceptionDelay
  deriving DecidableEq, Repr, Fintype

/-- `enum Error` of `src/types.rs`. -/
inductive Error where
  | NoFrame
  | CodecError
  deriving DecidableEq, Repr, Fintype

/-- Lookup in an association list, the model of `HashMap::get`. -/
def alookup {α β : Type} [DecidableEq α] (k : α) : List (α × β) → Option β
  | [] => none
  | (a, b) :: t => if a = k then some b else alookup k t

/-- `HashMap::insert`: replace the entry in place when the key is
present, append a fresh entry otherwise. -/
def ainsert {α β : Type} [DecidableEq α] (k : α) (v : β) : List (α × β) → List (α × β)
  | [] => [(k, v)]
  | (a, b) :: t => if a = k then (k, v) :: t else (a, b) :: ainsert k v t

/-- `HashMap::remove`: return the value stored under the key, if any,
together with the map with that entry deleted. -/
def aremove {α β : Type} [DecidableEq α] (k : α) : List (α × β) → Option β × List (α × β)
  | [] => (none, [])
  | (a, b) :: t =>
    if a = k then (some b, t)
    else
      let r := aremove k t
      (r.1, (a, b) :: r.2)

/-- Collecting an iterator of pairs into a fresh `HashMap`: entries are
inserted one by one, so a later duplicate key overwrites an earlier one. -/
def collectMap {α β : Type} [DecidableEq α] (l : List (α × β)) : List (α × β) :=
  l.foldl (fun acc kv => ainsert kv.1 kv.2 acc) []

/-- The keys of an association list. -/
def mapKeys {α β : Type} (l : List (α × β)) : List α := l.map Prod.fst

/-- `struct FrameData` of `src/types.rs`. -/
structure FrameData where
  statistics : List (Stat × Nat)
  buffers : List (BufferType × List Nat)
  error : Option Error
  deriving DecidableEq, Repr

/-- `FrameData::default()`: empty maps, no error. -/
def FrameData.default : FrameData := ⟨[], [], none⟩

/-- `FrameProperties::set` for `FrameData`: `self.statistics.insert(key, value)`. -/
def FrameData.set (fd : FrameData) (key : Stat) (value : Nat) : FrameData :=
  { fd with statistics := ainsert key value fd.statistics }

/-- `FrameProperties::get` for `FrameData`: `self.statistics.get(key).copied()`. -/
def FrameData.get (fd : FrameData) (key : Stat) : Option Nat :=
  alookup key fd.statistics

/-- `PullableFrameProperties::push` for `FrameData`: `self.buffers.insert(key, value)`. -/
def FrameData.push (fd : FrameData) (key : BufferType) (value : List Nat) : FrameData :=
  { fd with buffers := ainsert key value fd.buffers }

/-- `PullableFrameProperties::pull` for `FrameData`:
`self.buffers.remove(key)`, returning the removed buffer (if any) and
mutating the context. -/
def FrameData.pull (fd : FrameData) (key : BufferType) : Option (List Nat) × FrameData :=
  let r := aremove key fd.buffers
  (r.1, { fd with buffers := r.2 })

/-- `BorrowFrameProperties::get_ref` for `FrameData`: `self.buffers.get(key)`.
References are modelled by returning the buffer contents. -/
def FrameData.getRef (fd : FrameData) (key : BufferType) : Option (List Nat) :=
  alookup key fd.buffers

/-- `FrameError::report_error` for `FrameData`: `self.error = Some(error)`. -/
def FrameData.reportError (fd : FrameData) (error : Error) : FrameData :=
  { fd with error := some error }

/-- `FrameError::get_error` for `FrameData`: returns the error slot. -/
def FrameData.getError (fd : FrameData) : Option Error :=
  fd.error

/-!
## The bincode serialization primitives

`FrameData`'s `Encode`/`Decode` impls delegate to bincode's encoders for
`HashMap`, `Option`, enums, `u128`, `usize` and `Vec<u8>` (varint
configuration): an unsigned integer below 251 is one byte, otherwise a
marker byte (251/252/253/254) followed by the little-endian bytes of the
value at the width it first fits (u16/u32/u64/u128); an enum is its
variant index; an `Option` is a tag byte 0/1 followed by the payload;
a map or byte vector is its length followed by its entries.
-/

/-- The `k` little-endian bytes of `n`. -/
def toLE : Nat → Nat → List Nat
  | 0, _ => []
  | k + 1, n => n % 256 :: toLE k (n / 256)

/-- Read a little-endian byte list back into a number. -/
def fromLE : List Nat → Nat
  | [] => 0
  | b :: t => b + 256 * fromLE t

/-- Consume `k` bytes of the stream as a little-endian number. -/
def readLE (k : Nat) (bs : List Nat) : Option (Nat × List Nat) :=
  if k ≤ bs.length then some (fromLE (bs.take k), bs.drop k) else none

/-- bincode varint encoding of an unsigned integer (`u128` view). -/
def varintEncode (n : Nat) : List Nat :=
  if n < 251 then [n]
  else if n < 2 ^ 16 then 251 :: toLE 2 n
  else if n < 2 ^ 32 then 252 :: toLE 4 n
  else if n < 2 ^ 64 then 253 :: toLE 8 n
  else 254 :: toLE 16 (n % 2 ^ 128)

/-- bincode varint decoding. -/
def varintDecode : List Nat → Option (Nat × List Nat)
  | [] => none
  | b :: r =>
    if b < 251 then some (b, r)
    else if b = 251 then readLE 2 r
    else if b = 252 then readLE 4 r
    else if b = 253 then readLE 8 r
    else if b = 254 then readLE 16 r
    else none

/-- The bincode variant index of a `Stat`, in declaration order. -/
def Stat.index : Stat → Nat
  | .CaptureTime => 0
  | .EncodePushTime => 1
  | .TransmissionStartTime => 2
  | .DecodePushTime => 3
  | .EncodeTime => 4
  | .TransmissionTime => 5
  | .DecodeTime => 6
  | .FrameDelay => 7
  | .ReceptionDelay => 8

/-- The `Stat` with a given variant index, if any. -/
def Stat.ofIndex : Nat → Option Stat
  | 0 => some .CaptureTime
  | 1 => some .EncodePushTime
  | 2 => some .TransmissionStartTime
  | 3 => some .DecodePushTime
  | 4 => some .EncodeTime
  | 5 => some .TransmissionTime
  | 6 => some .DecodeTime
  | 7 => some .FrameDelay
  | 8 => some .ReceptionDelay
  | _ => none

/-- The bincode variant index of a `BufferType`, in declaration order. -/
def BufferType.index : BufferType → Nat
  | .YUVFrameBuffer => 0
  | .EncodedFrameBuffer => 1
  | .SerializedFrameData => 2
  | .DecodedRGBAFrameBuffer => 3

/-- The `BufferType` with a given variant index, if any. -/
def BufferType.ofIndex : Nat → Option BufferType
  | 0 => some .YUVFrameBuffer
  | 1 => some .EncodedFrameBuffer
  | 2 => some .SerializedFrameData
  | 3 => some .DecodedRGBAFrameBuffer
  | _ => none

/-- The bincode variant index of an `Error`, in declaration order. -/
def Error.index : Error → Nat
  | .NoFrame => 0
  | .CodecError => 1

/-- The `Error` with a given variant index, if any. -/
def Error.ofIndex : Nat → Option Error
  | 0 => some .NoFrame
  | 1 => some .CodecError
  | _ => none

/-- bincode encoding of a `Stat` (variant index as varint). -/
def encodeStat (s : Stat) : List Nat := varintEncode s.index

/-- bincode decoding of a `Stat`. -/
def decodeStat (bs : List Nat) : Option (Stat × List Nat) := do
  let (i, r) ← varintDecode bs
  match Stat.ofIndex i with
  | some s => some (s, r)
  | none => none

/-- bincode encoding of a `BufferType` (variant index as varint). -/
def encodeBufferType (b : BufferType) : List Nat := varintEncode b.index

/-- bincode decoding of a `BufferType`. -/
def decodeBufferType (bs : List Nat) : Option (BufferType × List Nat) := do
  let (i, r) ← varintDecode bs
  match BufferType.ofIndex i with
  | some b => some (b, r)
  | none => none

/-- bincode encoding of `Option<Error>`: tag byte then payload. -/
def encodeOptError : Option Error → List Nat
  | none => [0]
  | some e => 1 :: varintEncode e.index

/-- bincode decoding of `Option<Error>`. -/
def decodeOptError : List Nat → Option (Option Error × List Nat)
  | [] => none
  | b :: r =>
    if b = 0 then some (none, r)
    else if b = 1 then do
      let (i, r2) ← varintDecode r
      match Error.ofIndex i with
      | some e => some (some e, r2)
      | none => none
    else none

/-- bincode encoding of `Vec<u8>`: length-prefixed raw bytes. -/
def encodeByteVec (v : List Nat) : List Nat := varintEncode v.length ++ v

/-- bincode decoding of `Vec<u8>`. -/
def decodeByteVec (bs : List Nat) : Option (List Nat × List Nat) := do
  let (n, r) ← varintDecode bs
  if n ≤ r.length then some (r.take n, r.drop n) else none

/-- The entry section of the encoded statistics map: each entry is the
`Stat` key followed by the `u128` value. -/
def encodeStatEntries : List (Stat × Nat) → List Nat
  | [] => []
  | (k, v) :: t => encodeStat k ++ varintEncode v ++ encodeStatEntries t

/-- bincode encoding of `HashMap<Stat, u128>`: length, then entries in
iteration order. -/
def encodeStatsMap (l : List (Stat × Nat)) : List Nat :=
  varintEncode l.length ++ encodeStatEntries l

/-- Read `n` statistics entries from the stream. -/
def decodeStatEntries : Nat → List Nat → Option (List (Stat × Nat) × List Nat)
  | 0, bs => some ([], bs)
  | n + 1, bs => do
    let (k, r1) ← decodeStat bs
    let (v, r2) ← varintDecode r1
    let (t, r3) ← decodeStatEntries n r2
    some ((k, v) :: t, r3)

/-- bincode decoding of `HashMap<Stat, u128>`: read the length, read
that many entries, and insert them into a fresh map. -/
def decodeStatsMap (bs : List Nat) : Option (List (Stat × Nat) × List Nat) := do
  let (n, r) ← varintDecode bs
  let (l, r2) ← decodeStatEntries n r
  some (collectMap l, r2)

/-- The entry section of the encoded buffers map: each entry is the
`BufferType` key followed by the length-prefixed byte vector. -/
def encodeBufferEntries : List (BufferType × List Nat) → List Nat
  | [] => []
  | (k, v) :: t => encodeBufferType k ++ encodeByteVec v ++ encodeBufferEntries t

/-- bincode encoding of `HashMap<BufferType, Vec<u8>>`. -/
def encodeBuffersMap (l : List (BufferType × List Nat)) : List Nat :=
  varintEncode l.length ++ encodeBufferEntries l

/-- Read `n` buffer entries from the stream. -/
def decodeBufferEntries : Nat → List Nat → Option (List (BufferType × List Nat) × List Nat)
  | 0, bs => some ([], bs)
  | n + 1, bs => do
    let (k, r1) ← decodeBufferType bs
    let (v, r2) ← decodeByteVec r1
    let (t, r3) ← decodeBufferEntries n r2
    some ((k, v) :: t, r3)

/-- bincode decoding of `HashMap<BufferType, Vec<u8>>`. -/
def decodeBuffersMap (bs : List Nat) : Option (List (BufferType × List Nat) × List Nat) := do
  let (n, r) ← varintDecode bs
  let (l, r2) ← decodeBufferEntries n r
  some (collectMap l, r2)

/-- `BytesMut::to_vec`: copy the buffer contents into a fresh byte
vector (contents are unchanged). -/
def bytesToVec (b : List Nat) : List Nat := b

/-- `BytesMut::from(&vector[..])`: copy a byte slice into a fresh
`BytesMut` (contents are unchanged). -/
def bytesFromSlice (v : List Nat) : List Nat := v

/-- `impl Encode for FrameData` (`src/types.rs` lines 54–68): encode
the statistics map, then the error option, then the buffers map, the
latter after copying every buffer into a byte vector (`to_vec`) and
collecting the copies into a fresh map. -/
def FrameData.encode (fd : FrameData) : List Nat :=
  let mapped_buffers := collectMap (fd.buffers.map fun kv => (kv.1, bytesToVec kv.2))
  encodeStatsMap fd.statistics ++ encodeOptError fd.error ++ encodeBuffersMap mapped_buffers

/-- `impl Decode for FrameData` (`src/types.rs` lines 70–86): decode
the statistics map, then the error option, then the byte-vector map,
and rebuild the buffers map by copying every byte vector into a
`BytesMut`. -/
def FrameData.decode (bs : List Nat) : Option (FrameData × List Nat) := do
  let (statistics, r1) ← decodeStatsMap bs
  let (error, r2) ← decodeOptError r1
  let (mapped_buffers, r3) ← decodeBuffersMap r2
  let buffers := collectMap (mapped_buffers.map fun kv => (kv.1, bytesFromSlice kv.2))
  some ({ statistics := statistics, buffers := buffers, error := error }, r3)

/-- Well-formedness of a `FrameData` as it exists in the running
program: `HashMap` keys are unique, `u128` statistics values fit in 128
bits, and map sizes and buffer lengths fit in a `u128` (in the program
they are `usize` values, bounded far below that). -/
def FrameData.WF (fd : FrameData) : Prop :=
  (mapKeys fd.statistics).Nodup ∧
  (mapKeys fd.buffers).Nodup ∧
  (∀ kv ∈ fd.statistics, kv.2 < 2 ^ 128) ∧
  fd.statistics.length < 2 ^ 128 ∧
  fd.buffers.length < 2 ^ 128 ∧
  ∀ kb ∈ fd.buffers, kb.2.length < 2 ^ 128

instance (fd : FrameData) : Decidable fd.WF := by
  unfold FrameData.WF
  infer_instance

/-- A concrete well-formed context used to instantiate the theorems:
one timestamp, one buffer, an error reported. -/
def sampleContext : FrameData :=
  { statistics := [(.CaptureTime, 1000), (.EncodeTime, 70000)],
    buffers := [(.EncodedFrameBuffer, [7, 42, 255])],
    error := some .NoFrame }

/-- The spec scenario context: statistics `{CaptureTime: 1000}` and no
buffer under `EncodedFrameBuffer`. -/
def captureContext : FrameData :=
  { statistics := [(.CaptureTime, 1000)], buffers := [], error := none }

/-- A context whose statistics map iterates as `CaptureTime` then
`EncodeTime`. -/
def reorderedA : FrameData :=
  { statistics := [(.CaptureTime, 1), (.EncodeTime, 2)], buffers := [], error := none }

/-- The same statistics mapping as `reorderedA`, but iterated in the
other order — two runs of a program can produce exactly this situation
for equal `HashMap`s, since `HashMap` iteration order is unspecified
(randomized hashing). -/
def reorderedB : FrameData :=
  { statistics := [(.EncodeTime, 2), (.CaptureTime, 1)], buffers := [], error := none }

/-- `Encode::encode` takes `&self`: state-passing form of the encoder,
returning the produced bytes together with the context it leaves
behind.  The body mirrors `impl Encode for FrameData`: the statistics
and error are read, each buffer is copied into a fresh byte vector by
`to_vec`, and the copies (not the originals) are serialized. -/
def FrameData.encodeRun (fd : FrameData) : List Nat × FrameData :=
  let stats_bytes := encodeStatsMap fd.statistics
  let error_bytes := encodeOptError fd.error
  let mapped_buffers := collectMap (fd.buffers.map fun kv => (kv.1, bytesToVec kv.2))
  (stats_bytes ++ error_bytes ++ encodeBuffersMap mapped_buffers, fd)

/-- Order-aware form of `impl Encode for FrameData`.  The source
collects the copied buffers into a *fresh* `HashMap<&BufferType,
Vec<u8>>` before encoding it; a fresh `HashMap` has its own randomized
hash state, so the order in which the buffers section lists its entries
is some permutation of those entries that is not a function of the
context's in-memory state.  `bufOrder` names the iteration order the
fresh map takes on a given run; the statistics and error sections are
encoded directly from `self` and do not depend on it.
`FrameData.encode` is the run in which that order happens to coincide
with the order of `self.buffers`. -/
def FrameData.encodeWithOrder (fd : FrameData)
    (bufOrder : List (BufferType × List Nat)) : List Nat :=
  encodeStatsMap fd.statistics ++ encodeOptError fd.error ++ encodeBuffersMap bufOrder

/-- A context holding two buffers, so that the fresh buffers map built
by the encoder has more than one possible iteration order. -/
def twoBufferContext : FrameData :=
  { statistics := [(.CaptureTime, 1000)],
    buffers := [(.YUVFrameBuffer, [1, 2]), (.EncodedFrameBuffer, [3])],
    error := none }

/-- The buffer entries of `twoBufferContext` in the other iteration
order the fresh map can take. -/
def swappedBuffers : List (BufferType × List Nat) :=
  [(.EncodedFrameBuffer, [3]), (.YUVFrameBuffer, [1, 2])]


/-!
## Round-trip lemmas for the serialization primitives
-/

theorem toLE_length (k n : Nat) : (toLE k n).length = k := by
  induction k generalizing n with
  | zero => rfl
  | succ k ih => simp [toLE, ih]

theorem fromLE_toLE {k n : Nat} (h : n < 256 ^ k) : fromLE (toLE k n) = n := by
  induction k generalizing n with
  | zero =>
    simp only [Nat.pow_zero, Nat.lt_one_iff] at h
    simp [h, toLE, fromLE]
  | succ k ih =>
    have hdiv : n / 256 < 256 ^ k := by
      rw [Nat.div_lt_iff_lt_mul (by norm_num)]
      calc n < 256 ^ (k + 1) := h
        _ = 256 ^ k * 256 := by ring
    simp only [toLE, fromLE, ih hdiv]
    omega

theorem readLE_append {k n : Nat} (h : n < 256 ^ k) (r : List Nat) :
    readLE k (toLE k n ++ r) = some (n, r) := by
  have hlen : (toLE k n).length = k := toLE_length k n
  have hval : fromLE (toLE k n) = n := fromLE_toLE h
  generalize toLE k n = l at hlen hval
  subst hlen
  unfold readLE
  rw [if_pos (by simp), List.take_left, List.drop_left, hval]

theorem varint_roundTrip {n : Nat} (h : n < 2 ^ 128) (r : List Nat) :
    varintDecode (varintEncode n ++ r) = some (n, r) := by
  unfold varintEncode
  split_ifs with h1 h2 h3 h4
  · simp [varintDecode, h1]
  · have : n < 256 ^ 2 := by norm_num at h2 ⊢; omega
    simp [varintDecode, h1, readLE_append this r]
  · have : n < 256 ^ 4 := by norm_num at h3 ⊢; omega
    simp [varintDecode, h1, readLE_append this r]
  · have : n < 256 ^ 8 := by norm_num at h4 ⊢; omega
    simp [varintDecode, h1, readLE_append this r]
  · rw [Nat.mod_eq_of_lt h]
    have : n < 256 ^ 16 := by norm_num at h ⊢; omega
    simp [varintDecode, h1, readLE_append this r]

theorem decodeStat_encodeStat (s : Stat) (r : List Nat) :
    decodeStat (encodeStat s ++ r) = some (s, r) := by
  cases s <;>
    simp [encodeStat, decodeStat, Stat.index, Stat.ofIndex, varintEncode, varintDecode]

theorem decodeBufferType_encode (b : BufferType) (r : List Nat) :
    decodeBufferType (encodeBufferType b ++ r) = some (b, r) := by
  cases b <;>
    simp [encodeBufferType, decodeBufferType, BufferType.index, BufferType.ofIndex,
      varintEncode, varintDecode]

theorem decodeOptError_encode (e : Option Error) (r : List Nat) :
    decodeOptError (encodeOptError e ++ r) = some (e, r) := by
  cases e with
  | none => simp [encodeOptError, decodeOptError]
  | some e =>
    cases e <;>
      simp [encodeOptError, decodeOptError, Error.index, Error.ofIndex,
        varintEncode, varintDecode]

theorem decodeByteVec_encode {v : List Nat} (h : v.length < 2 ^ 128) (r : List Nat) :
    decodeByteVec (encodeByteVec v ++ r) = some (v, r) := by
  unfold encodeByteVec decodeByteVec
  rw [List.append_assoc, varint_roundTrip h (v ++ r)]
  simp [List.take_left, List.drop_left]

theorem decodeStatEntries_encode {l : List (Stat × Nat)}
    (h : ∀ kv ∈ l, kv.2 < 2 ^ 128) (r : List Nat) :
    decodeStatEntries l.length (encodeStatEntries l ++ r) = some (l, r) := by
  induction l with
  | nil => simp [decodeStatEntries, encodeStatEntries]
  | cons kv t ih =>
    obtain ⟨k, v⟩ := kv
    have hv : v < 2 ^ 128 := h (k, v) (by simp)
    have ht : ∀ kv ∈ t, kv.2 < 2 ^ 128 := fun kv hkv => h kv (by simp [hkv])
    simp [decodeStatEntries, encodeStatEntries, List.append_assoc,
      decodeStat_encodeStat, varint_roundTrip hv, ih ht]

theorem decodeBufferEntries_encode {l : List (BufferType × List Nat)}
    (h : ∀ kv ∈ l, kv.2.length < 2 ^ 128) (r : List Nat) :
    decodeBufferEntries l.length (encodeBufferEntries l ++ r) = some (l, r) := by
  induction l with
  | nil => simp [decodeBufferEntries, encodeBufferEntries]
  | cons kv t ih =>
    obtain ⟨k, v⟩ := kv
    have hv : v.length < 2 ^ 128 := h (k, v) (by simp)
    have ht : ∀ kv ∈ t, kv.2.length < 2 ^ 128 := fun kv hkv => h kv (by simp [hkv])
    simp [decodeBufferEntries, encodeBufferEntries, List.append_assoc,
      decodeBufferType_encode, decodeByteVec_encode hv, ih ht]

/-!
## Collecting a duplicate-free entry list rebuilds the same list
-/

theorem alookup_eq_none_iff {α β : Type} [DecidableEq α] {k : α} {l : List (α × β)} :
    alookup k l = none ↔ k ∉ mapKeys l := by
  induction l with
  | nil => simp [alookup, mapKeys]
  | cons kv t ih =>
    obtain ⟨a, b⟩ := kv
    by_cases hak : a = k <;> (simp [alookup, mapKeys, hak, eq_comm] at ih ⊢; try tauto)

theorem alookup_append {α β : Type} [DecidableEq α] (k : α) (l1 l2 : List (α × β)) :
    alookup k (l1 ++ l2) =
      match alookup k l1 with
      | some v => some v
      | none => alookup k l2 := by
  induction l1 with
  | nil => simp [alookup]
  | cons kv t ih =>
    obtain ⟨a, b⟩ := kv
    by_cases hak : a = k <;> simp [alookup, hak, ih]

theorem ainsert_of_fresh {α β : Type} [DecidableEq α] {k : α} (v : β) {l : List (α × β)}
    (h : alookup k l = none) : ainsert k v l = l ++ [(k, v)] := by
  induction l with
  | nil => rfl
  | cons kv t ih =>
    obtain ⟨a, b⟩ := kv
    by_cases hak : a = k
    · simp [alookup, hak] at h
    · simp [alookup, hak] at h
      simp [ainsert, hak, ih h]

theorem foldl_ainsert_of_nodup {α β : Type} [DecidableEq α] {l : List (α × β)}
    (acc : List (α × β)) (hn : (mapKeys l).Nodup)
    (hd : ∀ k ∈ mapKeys l, alookup k acc = none) :
    l.foldl (fun acc kv => ainsert kv.1 kv.2 acc) acc = acc ++ l := by
  induction l generalizing acc with
  | nil => simp
  | cons kv t ih =>
    obtain ⟨k, v⟩ := kv
    simp only [mapKeys, List.map_cons, List.nodup_cons] at hn
    have hk : alookup k acc = none := hd k (by simp [mapKeys])
    rw [List.foldl_cons]
    have hd2 : ∀ k2 ∈ mapKeys t, alookup k2 (ainsert k v acc) = none := by
      intro k2 hk2
      rw [ainsert_of_fresh v hk, alookup_append]
      have hne : k ≠ k2 := by
        intro heq
        exact hn.1 (heq ▸ hk2)
      have : alookup k2 acc = none := hd k2 (by simp [mapKeys] at hk2 ⊢; tauto)
      simp [this, alookup, hne]
    rw [ih (ainsert k v acc) hn.2 hd2, ainsert_of_fresh v hk]
    simp

theorem collectMap_eq_self {α β : Type} [DecidableEq α] {l : List (α × β)}
    (hn : (mapKeys l).Nodup) : collectMap l = l := by
  unfold collectMap
  rw [foldl_ainsert_of_nodup [] hn (fun k _ => rfl)]
  simp

theorem decodeStatsMap_encode {l : List (Stat × Nat)} (hn : (mapKeys l).Nodup)
    (hv : ∀ kv ∈ l, kv.2 < 2 ^ 128) (hl : l.length < 2 ^ 128) (r : List Nat) :
    decodeStatsMap (encodeStatsMap l ++ r) = some (l, r) := by
  unfold encodeStatsMap decodeStatsMap
  rw [List.append_assoc, varint_roundTrip hl]
  simp [decodeStatEntries_encode hv, collectMap_eq_self hn]

theorem decodeBuffersMap_encode {l : List (BufferType × List Nat)}
    (hn : (mapKeys l).Nodup) (hv : ∀ kv ∈ l, kv.2.length < 2 ^ 128)
    (hl : l.length < 2 ^ 128) (r : List Nat) :
    decodeBuffersMap (encodeBuffersMap l ++ r) = some (l, r) := by
  unfold encodeBuffersMap decodeBuffersMap
  rw [List.append_assoc, varint_roundTrip hl]
  simp [decodeBufferEntries_encode hv, collectMap_eq_self hn]

/-- The full round trip: decoding the encoding of a well-formed
`FrameData` returns that `FrameData` exactly and consumes exactly the
encoded bytes. -/
theorem FrameData.decode_encode_append {fd : FrameData} (h : fd.WF) (r : List Nat) :
    FrameData.decode (fd.encode ++ r) = some (fd, r) := by
  obtain ⟨hs, hb, hv, hsl, hbl, hblen⟩ := h
  unfold FrameData.encode FrameData.decode
  have hmap : fd.buffers.map (fun kv => (kv.1, bytesToVec kv.2)) = fd.buffers := by
    simp [bytesToVec]
  rw [hmap, collectMap_eq_self hb]
  simp only [List.append_assoc]
  rw [decodeStatsMap_encode hs hv hsl]
  simp only [Option.bind_eq_bind, Option.some_bind]
  rw [decodeOptError_encode]
  simp only [Option.some_bind]
  rw [decodeBuffersMap_encode hb hblen hbl]
  simp only [Option.some_bind]
  have hmap2 : fd.buffers.map (fun kv => (kv.1, bytesFromSlice kv.2)) = fd.buffers := by
    simp [bytesFromSlice]
  rw [hmap2, collectMap_eq_self hb]

/-!
## Lemmas about the map operations
-/

theorem alookup_ainsert {α β : Type} [DecidableEq α] (k q : α) (v : β) (l : List (α × β)) :
    alookup q (ainsert k v l) = if k = q then some v else alookup q l := by
  induction l with
  | nil => simp [ainsert, alookup]
  | cons kv t ih =>
    obtain ⟨a, b⟩ := kv
    by_cases hak : a = k
    · subst hak
      by_cases haq : a = q <;> simp [ainsert, alookup, haq]
    · by_cases haq : a = q
      · subst haq
        have hka : ¬ k = a := fun h => hak h.symm
        simp [ainsert, alookup, hak, hka]
      · simp [ainsert, alookup, hak, haq, ih]

theorem alookup_ainsert_self {α β : Type} [DecidableEq α] (k : α) (v : β)
    (l : List (α × β)) : alookup k (ainsert k v l) = some v := by
  simp [alookup_ainsert]

theorem ainsert_ainsert_self {α β : Type} [DecidableEq α] (k : α) (v1 v2 : β)
    (l : List (α × β)) : ainsert k v2 (ainsert k v1 l) = ainsert k v2 l := by
  induction l with
  | nil => simp [ainsert]
  | cons kv t ih =>
    obtain ⟨a, b⟩ := kv
    by_cases hak : a = k <;> simp [ainsert, hak, ih]

theorem mapKeys_ainsert {α β : Type} [DecidableEq α] (k : α) (v : β) (l : List (α × β)) :
    mapKeys (ainsert k v l) = if k ∈ mapKeys l then mapKeys l else mapKeys l ++ [k] := by
  induction l with
  | nil => simp [ainsert, mapKeys]
  | cons kv t ih =>
    obtain ⟨a, b⟩ := kv
    by_cases hak : a = k
    · subst hak
      simp [ainsert, mapKeys]
    · simp only [ainsert, if_neg hak, mapKeys, List.map_cons, List.mem_cons] at ih ⊢
      rw [ih]
      have : ¬ k = a := fun h => hak h.symm
      by_cases hk : k ∈ List.map Prod.fst t <;> simp [hk, this]

theorem mapKeys_ainsert_nodup {α β : Type} [DecidableEq α] {k : α} (v : β)
    {l : List (α × β)} (h : (mapKeys l).Nodup) : (mapKeys (ainsert k v l)).Nodup := by
  rw [mapKeys_ainsert]
  by_cases hk : k ∈ mapKeys l <;> simp [hk, h, List.Nodup.append, List.nodup_append]

theorem aremove_fst_ainsert {α β : Type} [DecidableEq α] (k : α) (v : β)
    (l : List (α × β)) : (aremove k (ainsert k v l)).1 = some v := by
  induction l with
  | nil => simp [ainsert, aremove]
  | cons kv t ih =>
    obtain ⟨a, b⟩ := kv
    by_cases hak : a = k <;> simp [ainsert, aremove, hak, ih]

theorem aremove_snd_ainsert_fresh {α β : Type} [DecidableEq α] {k : α} (v : β)
    {l : List (α × β)} (h : (mapKeys l).Nodup) :
    alookup k (aremove k (ainsert k v l)).2 = none := by
  induction l with
  | nil => simp [ainsert, aremove, alookup]
  | cons kv t ih =>
    obtain ⟨a, b⟩ := kv
    simp only [mapKeys, List.map_cons, List.nodup_cons] at h
    by_cases hak : a = k
    · subst hak
      simp only [ainsert, if_pos rfl, aremove, alookup]
      rw [alookup_eq_none_iff]
      exact h.1
    · simp only [ainsert, if_neg hak, aremove, alookup]
      exact ih h.2

theorem aremove_of_fresh {α β : Type} [DecidableEq α] {k : α} {l : List (α × β)}
    (h : alookup k l = none) : aremove k l = (none, l) := by
  induction l with
  | nil => rfl
  | cons kv t ih =>
    obtain ⟨a, b⟩ := kv
    simp only [alookup] at h
    by_cases hak : a = k
    · simp [hak] at h
    · rw [if_neg hak] at h
      simp [aremove, hak, ih h]

theorem alookup_perm {α β : Type} [DecidableEq α] {l1 l2 : List (α × β)}
    (hp : l1.Perm l2) : (mapKeys l2).Nodup → ∀ k, alookup k l1 = alookup k l2 := by
  induction hp with
  | nil => exact fun _ _ => rfl
  | cons x h ih =>
    intro hn k
    obtain ⟨a, b⟩ := x
    simp only [mapKeys, List.map_cons, List.nodup_cons] at hn
    simp only [alookup]
    rw [ih (by simpa [mapKeys] using hn.2) k]
  | swap x y l =>
    intro hn k
    obtain ⟨a, b⟩ := x
    obtain ⟨c, d⟩ := y
    simp only [mapKeys, List.map_cons, List.nodup_cons] at hn
    have hac : a ≠ c := fun h => hn.1 (List.mem_cons.mpr (Or.inl h))
    simp only [alookup]
    by_cases hck : c = k <;> by_cases hak : a = k
    · exact absurd (hak.trans hck.symm) hac
    · simp [hck, hak]
    · simp [hck, hak]
    · simp [hck, hak]
  | trans h12 h23 ih12 ih23 =>
    intro hn k
    have hn2 := (h23.map Prod.fst).nodup_iff.mpr (by simpa [mapKeys] using hn)
    rw [ih12 (by simpa [mapKeys] using hn2) k, ih23 hn k]

/-!
## The claims
-/

/-- C1: Serialization round-trip — for every well-formed `FrameData`
with arbitrary statistics, error, and buffer contents, decoding the
encoding yields a `FrameData` with identical statistics (same keys
mapped to the same u128 values), an identical error slot, and
byte-identical buffer contents for every buffer-key. -/
theorem C1_serialization_roundTrip (fd : FrameData) (h : fd.WF) :
    ∃ fd2 : FrameData, FrameData.decode (FrameData.encode fd) = some (fd2, []) ∧
      (∀ k : Stat, fd2.get k = fd.get k) ∧
      fd2.getError = fd.getError ∧
      (∀ k : BufferType, fd2.getRef k = fd.getRef k) := by
  refine ⟨fd, ?_, fun _ => rfl, rfl, fun _ => rfl⟩
  simpa using FrameData.decode_encode_append h []

/-- Witness for C1 at a concrete context. -/
theorem C1_serialization_roundTrip_witness :
    sampleContext.WF ∧
    ∃ fd2 : FrameData,
      FrameData.decode (FrameData.encode sampleContext) = some (fd2, []) ∧
      (∀ k : Stat, fd2.get k = sampleContext.get k) ∧
      fd2.getError = sampleContext.getError ∧
      (∀ k : BufferType, fd2.getRef k = sampleContext.getRef k) :=
  ⟨by decide, C1_serialization_roundTrip sampleContext (by decide)⟩

/-- C2 as stated is false: `reorderedA` and `reorderedB` carry the same
statistics mapping, the same buffers and the same error, yet their
encodings differ, because the bytes follow the map's (unspecified)
iteration order.  These are exactly the in-memory states two equal
`HashMap`s can be in across two runs. -/
theorem C2_counterexample :
    (∀ k : Stat, reorderedA.get k = reorderedB.get k) ∧
    (∀ k : BufferType, reorderedA.getRef k = reorderedB.getRef k) ∧
    reorderedA.getError = reorderedB.getError ∧
    reorderedA.encode ≠ reorderedB.encode := by decide

/-- C2 (amended): the encoding is deterministic only up to the order in
which the buffers section lists its entries.  The statistics and error
sections are encoded directly from the context, while the buffers are
first collected into a fresh `HashMap` whose iteration order is an
arbitrary permutation of the buffer entries; for every order that map
can take, the produced bytes decode back to a context with the same
statistics mapping, the same error and byte-identical buffer contents
for every key.  Identical output byte sequences are not guaranteed, on
equal mappings (see the counterexample) or even on two runs over the
identical in-memory context when it holds two or more buffers. -/
theorem C2_encode_upto_buffer_order (fd : FrameData)
    (bufOrder : List (BufferType × List Nat)) (h : fd.WF)
    (hp : bufOrder.Perm fd.buffers) :
    fd.encodeWithOrder bufOrder =
      encodeStatsMap fd.statistics ++ encodeOptError fd.error ++
        encodeBuffersMap bufOrder ∧
    ∃ fd2 : FrameData,
      FrameData.decode (fd.encodeWithOrder bufOrder) = some (fd2, []) ∧
      (∀ k : Stat, fd2.get k = fd.get k) ∧
      fd2.getError = fd.getError ∧
      (∀ k : BufferType, fd2.getRef k = fd.getRef k) := by
  obtain ⟨hs, hb, hv, hsl, hbl, hblen⟩ := h
  have hbn : (mapKeys bufOrder).Nodup := by
    have := (hp.map Prod.fst).nodup_iff.mpr (by simpa [mapKeys] using hb)
    simpa [mapKeys] using this
  have hWF : FrameData.WF { fd with buffers := bufOrder } := by
    refine ⟨hs, hbn, hv, hsl, ?_, ?_⟩
    · rw [hp.length_eq]
      exact hbl
    · intro kb hkb
      exact hblen kb (hp.mem_iff.mp hkb)
  have hrt := FrameData.decode_encode_append hWF []
  have henc : FrameData.encode { fd with buffers := bufOrder } =
      fd.encodeWithOrder bufOrder := by
    unfold FrameData.encode FrameData.encodeWithOrder
    simp only [bytesToVec]
    rw [show (bufOrder.map fun kv => (kv.1, kv.2)) = bufOrder from by simp,
      collectMap_eq_self hbn]
  refine ⟨rfl, ⟨{ fd with buffers := bufOrder }, ?_, fun k => rfl, rfl,
    fun k => alookup_perm hp hb k⟩⟩
  rw [← henc]
  simpa using hrt

/-- Witness for the amended C2: a context holding two buffers, with the
fresh buffers map iterating in the swapped order. -/
theorem C2_encode_upto_buffer_order_witness :
    twoBufferContext.WF ∧ swappedBuffers.Perm twoBufferContext.buffers ∧
    (twoBufferContext.encodeWithOrder swappedBuffers =
        encodeStatsMap twoBufferContext.statistics ++
          encodeOptError twoBufferContext.error ++
          encodeBuffersMap swappedBuffers ∧
      ∃ fd2 : FrameData,
        FrameData.decode (twoBufferContext.encodeWithOrder swappedBuffers) =
          some (fd2, []) ∧
        (∀ k : Stat, fd2.get k = twoBufferContext.get k) ∧
        fd2.getError = twoBufferContext.getError ∧
        (∀ k : BufferType, fd2.getRef k = twoBufferContext.getRef k)) :=
  ⟨by decide, by decide,
    C2_encode_upto_buffer_order twoBufferContext swappedBuffers (by decide) (by decide)⟩

/-- C3: Exclusive buffer ownership via push/pull — pushing a buffer
under key `k` then pulling `k` returns exactly that buffer and removes
`k` from the context: a subsequent `get_ref(k)` or `pull(k)` yields
`None`. -/
theorem C3_push_pull_ownership (fd : FrameData) (k : BufferType) (b : List Nat)
    (h : (mapKeys fd.buffers).Nodup) :
    ((fd.push k b).pull k).1 = some b ∧
    ((fd.push k b).pull k).2.getRef k = none ∧
    (((fd.push k b).pull k).2.pull k).1 = none := by
  unfold FrameData.push FrameData.pull FrameData.getRef
  simp only
  have h2 : alookup k (aremove k (ainsert k b fd.buffers)).2 = none :=
    aremove_snd_ainsert_fresh b h
  refine ⟨aremove_fst_ainsert k b fd.buffers, h2, ?_⟩
  rw [aremove_of_fresh h2]

/-- Witness for C3 at a concrete context. -/
theorem C3_push_pull_ownership_witness :
    (mapKeys sampleContext.buffers).Nodup ∧
    (((sampleContext.push .YUVFrameBuffer [1, 2]).pull .YUVFrameBuffer).1 = some [1, 2] ∧
      ((sampleContext.push .YUVFrameBuffer [1, 2]).pull .YUVFrameBuffer).2.getRef
        .YUVFrameBuffer = none ∧
      (((sampleContext.push .YUVFrameBuffer [1, 2]).pull .YUVFrameBuffer).2.pull
        .YUVFrameBuffer).1 = none) :=
  ⟨by decide, C3_push_pull_ownership sampleContext .YUVFrameBuffer [1, 2] (by decide)⟩

/-- C4: Error slot invariant — the slot holds at most one outstanding
error value (it is an `Option`); `get_error` returns `None` exactly
when the context is healthy (the slot is empty), and after
`report_error(e)` it returns `Some(e)`. -/
theorem C4_error_slot (fd : FrameData) (e : Error) :
    (fd.getError = none ↔ fd.error = none) ∧ (fd.reportError e).getError = some e :=
  ⟨Iff.rfl, rfl⟩

/-- C5: Soft redeem tolerance — pulling a key the context does not hold
returns `None` and leaves the context entirely unchanged. -/
theorem C5_pull_missing_noop (fd : FrameData) (k : BufferType)
    (h : fd.getRef k = none) :
    (fd.pull k).1 = none ∧ (fd.pull k).2 = fd := by
  unfold FrameData.getRef at h
  unfold FrameData.pull
  rw [aremove_of_fresh h]
  exact ⟨rfl, rfl⟩

/-- Witness for C5 at a concrete context with no buffers. -/
theorem C5_pull_missing_noop_witness :
    captureContext.getRef .EncodedFrameBuffer = none ∧
    ((captureContext.pull .EncodedFrameBuffer).1 = none ∧
      (captureContext.pull .EncodedFrameBuffer).2 = captureContext) :=
  ⟨by decide, C5_pull_missing_noop captureContext .EncodedFrameBuffer (by decide)⟩

/-- C6: Statistics map correctness — after `set(k, v)` a `get(k)`
returns `Some(v)`; setting the same key again replaces its value
without creating a duplicate entry (and key uniqueness is preserved);
and the result of `get` does not depend on the order in which distinct
keys were set. -/
theorem C6_statistics_map (fd : FrameData) (k : Stat) (v v2 : Nat)
    (k1 k2 : Stat) (w1 w2 : Nat) (hne : k1 ≠ k2) :
    (fd.set k v).get k = some v ∧
    (fd.set k v).set k v2 = fd.set k v2 ∧
    ((mapKeys fd.statistics).Nodup → (mapKeys (fd.set k v).statistics).Nodup) ∧
    ∀ q : Stat, ((fd.set k1 w1).set k2 w2).get q = ((fd.set k2 w2).set k1 w1).get q := by
  refine ⟨?_, ?_, ?_, ?_⟩
  · simp [FrameData.set, FrameData.get, alookup_ainsert_self]
  · simp [FrameData.set, ainsert_ainsert_self]
  · intro hn
    exact mapKeys_ainsert_nodup v hn
  · intro q
    simp only [FrameData.set, FrameData.get]
    rw [alookup_ainsert, alookup_ainsert, alookup_ainsert, alookup_ainsert]
    by_cases h1 : k1 = q <;> by_cases h2 : k2 = q
    · exact absurd (h1.trans h2.symm) hne
    · simp [h1, h2]
    · simp [h1, h2]
    · simp [h1, h2]

/-- Witness for C6 at a concrete context. -/
theorem C6_statistics_map_witness :
    Stat.CaptureTime ≠ Stat.EncodeTime ∧
    ((captureContext.set .FrameDelay 7).get .FrameDelay = some 7 ∧
      (captureContext.set .FrameDelay 7).set .FrameDelay 9 =
        captureContext.set .FrameDelay 9 ∧
      ((mapKeys captureContext.statistics).Nodup →
        (mapKeys (captureContext.set .FrameDelay 7).statistics).Nodup) ∧
      ∀ q : Stat,
        ((captureContext.set .CaptureTime 3).set .EncodeTime 4).get q =
          ((captureContext.set .EncodeTime 4).set .CaptureTime 3).get q) :=
  ⟨by decide, C6_statistics_map captureContext .FrameDelay 7 9 .CaptureTime .EncodeTime
    3 4 (by decide)⟩

/-- C7: Frame effect of setting a statistic — setting `k2` leaves the
value stored under a distinct key `k1` unchanged and leaves the buffers
map and error slot unchanged. -/
theorem C7_set_frame_effect (fd : FrameData) (k1 k2 : Stat) (v : Nat) (hne : k1 ≠ k2) :
    (fd.set k2 v).get k1 = fd.get k1 ∧
    (fd.set k2 v).buffers = fd.buffers ∧
    (fd.set k2 v).error = fd.error := by
  refine ⟨?_, rfl, rfl⟩
  simp only [FrameData.set, FrameData.get]
  rw [alookup_ainsert, if_neg (fun h2 => hne h2.symm)]

/-- Witness for C7: the spec scenario, a context with
`CaptureTime = 1000` through a processor that sets `EncodeTime`. -/
theorem C7_set_frame_effect_witness :
    Stat.CaptureTime ≠ Stat.EncodeTime ∧
    ((captureContext.set .EncodeTime 500).get .CaptureTime =
        captureContext.get .CaptureTime ∧
      (captureContext.set .EncodeTime 500).buffers = captureContext.buffers ∧
      (captureContext.set .EncodeTime 500).error = captureContext.error) :=
  ⟨by decide, C7_set_frame_effect captureContext .CaptureTime .EncodeTime 500 (by decide)⟩

/-- C8: Encoding layout — the encoding is the statistics section, then
the error section, then the buffers section, in that order; each
section is independently decodable from any position of the stream, and
every buffer is serialized as a length-prefixed byte array. -/
theorem C8_encoding_layout (fd : FrameData) (h : fd.WF) (r1 r2 r3 : List Nat) :
    fd.encode = encodeStatsMap fd.statistics ++ encodeOptError fd.error ++
      encodeBuffersMap fd.buffers ∧
    (∀ kv ∈ fd.buffers, encodeByteVec kv.2 = varintEncode kv.2.length ++ kv.2) ∧
    decodeStatsMap (encodeStatsMap fd.statistics ++ r1) = some (fd.statistics, r1) ∧
    decodeOptError (encodeOptError fd.error ++ r2) = some (fd.error, r2) ∧
    decodeBuffersMap (encodeBuffersMap fd.buffers ++ r3) = some (fd.buffers, r3) := by
  obtain ⟨hs, hb, hv, hsl, hbl, hblen⟩ := h
  refine ⟨?_, fun kv _ => rfl, decodeStatsMap_encode hs hv hsl r1,
    decodeOptError_encode fd.error r2, decodeBuffersMap_encode hb hblen hbl r3⟩
  unfold FrameData.encode
  rw [show fd.buffers.map (fun kv => (kv.1, bytesToVec kv.2)) = fd.buffers by
    simp [bytesToVec], collectMap_eq_self hb]

/-- Witness for C8 at a concrete context. -/
theorem C8_encoding_layout_witness :
    sampleContext.WF ∧
    (sampleContext.encode = encodeStatsMap sampleContext.statistics ++
        encodeOptError sampleContext.error ++
        encodeBuffersMap sampleContext.buffers ∧
      (∀ kv ∈ sampleContext.buffers,
        encodeByteVec kv.2 = varintEncode kv.2.length ++ kv.2) ∧
      decodeStatsMap (encodeStatsMap sampleContext.statistics ++ []) =
        some (sampleContext.statistics, []) ∧
      decodeOptError (encodeOptError sampleContext.error ++ []) =
        some (sampleContext.error, []) ∧
      decodeBuffersMap (encodeBuffersMap sampleContext.buffers ++ []) =
        some (sampleContext.buffers, [])) :=
  ⟨by decide, C8_encoding_layout sampleContext (by decide) [] [] []⟩

/-- C9: push replaces silently — for a context already holding a buffer
under key `k`, `push(k, b)` succeeds, and afterwards both `get_ref(k)`
and `pull(k)` return `b`, not the earlier buffer. -/
theorem C9_push_replaces (fd : FrameData) (k : BufferType) (b b0 : List Nat)
    (h : fd.getRef k = some b0) :
    (fd.push k b).getRef k = some b ∧ ((fd.push k b).pull k).1 = some b := by
  constructor
  · simp [FrameData.push, FrameData.getRef, alookup_ainsert_self]
  · simp only [FrameData.push, FrameData.pull]
    exact aremove_fst_ainsert k b fd.buffers

/-- Witness for C9: `sampleContext` already holds `EncodedFrameBuffer`. -/
theorem C9_push_replaces_witness :
    sampleContext.getRef .EncodedFrameBuffer = some [7, 42, 255] ∧
    ((sampleContext.push .EncodedFrameBuffer [9]).getRef .EncodedFrameBuffer =
        some [9] ∧
      ((sampleContext.push .EncodedFrameBuffer [9]).pull .EncodedFrameBuffer).1 =
        some [9]) :=
  ⟨by decide, C9_push_replaces sampleContext .EncodedFrameBuffer [9] [7, 42, 255]
    (by decide)⟩

/-- C10: encoding is read-only — running the encoder returns the bytes
of `encode` and leaves the context unchanged, because the buffers are
copied into fresh byte vectors for serialization rather than moved or
mutated. -/
theorem C10_encode_readonly (fd : FrameData) :
    fd.encodeRun.2 = fd ∧ fd.encodeRun.1 = fd.encode :=
  ⟨rfl, rfl⟩
